import Mathlib

/-!
Shallow embedding of the smoke-test engine in
`.github/actions/smoke-tests/smoke-tests.js` (BMAD-METHOD repository):
the link extractor `extractLinks`, the retry scheduler `executeTest`,
the homepage and link-integrity probes, and the test runner `runTests`.

Strings are modelled as `List Char` (`Str`). Wall-clock time and network
I/O are ambient effects: durations are not modelled (the `duration`
field is carried as 0), a probe body is modelled as a function from the
attempt index to its outcome, and the HTTP fetcher inside a probe is an
explicit oracle `Str → Except Str FetchResponse`.
-/

abbrev Str := List Char

/-- ASCII whitespace, modelling the regex class used in the
anchor-tag scan of `extractLinks` (smoke-tests.js line 88). -/
def isWs (c : Char) : Bool :=
  c = ' ' || c = '\t' || c = '\n' || c = '\r' || c = '\x0b' || c = '\x0c'

/-- Case-insensitive match of the six characters of the attribute opener
the regex of `extractLinks` looks for inside an anchor tag. -/
def isHrefOpen : Str → Bool
  | [c1, c2, c3, c4, c5, c6] =>
    (c1 = 'h' || c1 = 'H') && (c2 = 'r' || c2 = 'R') &&
    (c3 = 'e' || c3 = 'E') && (c4 = 'f' || c4 = 'F') &&
    (c5 = '=') && (c6 = '"')
  | _ => false

/-- Scanner mode: outside any anchor tag, or inside one.  `tag prevWs`
records whether the previously consumed tag character was whitespace,
since the regex requires the attribute opener to follow whitespace. -/
inductive ScanMode where
  | outer : ScanMode
  | tag : Bool → ScanMode

/-- One pass of the global regex scan of `extractLinks`
(smoke-tests.js lines 88-91): find `<a` + whitespace, then inside the
tag (no `>` crossed) the first whitespace-preceded `href="`, capture up
to the closing quote, and resume after it.  `fuel` bounds the recursion;
each step consumes at least one character, so `s.length` suffices. -/
def scanGo (fuel : Nat) (m : ScanMode) (s : Str) : List Str :=
  match fuel with
  | 0 => []
  | fuel + 1 =>
    match m, s with
    | _, [] => []
    | .outer, '<' :: rest =>
      match rest with
      | c :: w :: rest2 =>
        if (c = 'a' || c = 'A') && isWs w then scanGo fuel (.tag true) rest2
        else scanGo fuel .outer rest
      | _ => []
    | .outer, _ :: rest => scanGo fuel .outer rest
    | .tag _, '>' :: rest => scanGo fuel .outer rest
    | .tag pw, s' =>
      if pw && isHrefOpen (s'.take 6) then
        let after := s'.drop 6
        let v := after.takeWhile (fun c => c ≠ '"')
        match after.dropWhile (fun c => c ≠ '"') with
        | '"' :: r2 => v :: scanGo fuel .outer r2
        | _ => []
      else
        match s' with
        | c :: rest => scanGo fuel (.tag (isWs c)) rest
        | [] => []

/-- The sequence of `href` attribute values the regex of `extractLinks`
captures from the HTML, in document order. -/
def scanHrefs (html : Str) : List Str :=
  scanGo html.length .outer html

/-- Split a URL at the first `://`, returning the protocol (scheme plus
the colon, as the WHATWG `protocol` getter does) and the remainder. -/
def splitUrlGo (acc : Str) : Str → Option (Str × Str)
  | [] => none
  | c :: rest =>
    if c = ':' ∧ "//".toList.isPrefixOf rest then some (acc ++ [':'], rest.drop 2)
    else splitUrlGo (acc ++ [c]) rest

def splitUrl (u : Str) : Option (Str × Str) :=
  splitUrlGo [] u

/-- Model of `new URL(u).protocol`: the scheme with its trailing colon. -/
def urlProtocol (u : Str) : Str :=
  match splitUrl u with
  | some (p, _) => p
  | none => []

/-- Model of `new URL(u).host`: the authority, i.e. what stands between
`://` and the first `/`, `?` or `#` (ports kept, as `host` keeps them). -/
def urlHost (u : Str) : Str :=
  match splitUrl u with
  | some (_, r) => r.takeWhile (fun c => !(c = '/' || c = '?' || c = '#'))
  | none => []

/-- The skip test of `extractLinks` (smoke-tests.js line 95): anchors,
javascript:, mailto: and tel: targets are dropped. -/
def excludedHref (href : Str) : Bool :=
  "#".toList.isPrefixOf href ||
  "javascript:".toList.isPrefixOf href ||
  "mailto:".toList.isPrefixOf href ||
  "tel:".toList.isPrefixOf href

/-- Relative-to-absolute resolution of `extractLinks` (lines 100-109):
http/https URLs pass through, a leading-slash href is prefixed with the
base protocol and host, anything else with protocol, host and a slash. -/
def resolveHref (baseUrl href : Str) : Str :=
  if "http://".toList.isPrefixOf href || "https://".toList.isPrefixOf href then
    href
  else if "/".toList.isPrefixOf href then
    urlProtocol baseUrl ++ '/' :: '/' :: urlHost baseUrl ++ href
  else
    urlProtocol baseUrl ++ '/' :: '/' :: urlHost baseUrl ++ '/' :: href

/-- Processing of one captured href in the loop of `extractLinks`
(lines 92-117): skip excluded targets, resolve, keep only same-host. -/
def processHref (baseUrl href : Str) : Option Str :=
  if excludedHref href then none
  else
    let absoluteUrl := resolveHref baseUrl href
    if urlHost absoluteUrl = urlHost baseUrl then some absoluteUrl else none

/-- The `links` array of `extractLinks` before deduplication: the
resolved same-host URLs in document order. -/
def rawLinks (html baseUrl : Str) : List Str :=
  (scanHrefs html).filterMap (processHref baseUrl)

/-- Model of `[...new Set(links)]` (line 120): a JS `Set` keeps the
first occurrence of each element, in insertion order. -/
def setDedup : List Str → List Str
  | [] => []
  | x :: xs => x :: setDedup (xs.filter (fun y => y ≠ x))
termination_by l => l.length
decreasing_by
  simp only [List.length_cons]
  exact Nat.lt_succ_of_le (List.length_filter_le _ _)

/-- `extractLinks(html, baseUrl)` (smoke-tests.js lines 86-121). -/
def extractLinks (html baseUrl : Str) : List Str :=
  setDedup (rawLinks html baseUrl)

/-- Index of the first occurrence of `a` (length of the list when absent). -/
def idxOfS (a : Str) : List Str → Nat
  | [] => 0
  | x :: xs => if x = a then 0 else idxOfS a xs + 1

/-! ## Retry scheduler (`executeTest`, smoke-tests.js lines 133-171) -/

inductive TestStatus where
  | passed : TestStatus
  | failed : TestStatus
deriving DecidableEq, Repr

/-- The per-probe record `executeTest` returns.  `duration` is wall
clock in the source and is carried as 0 here (time is not modelled);
the failed branch sets `error`, the passed branch leaves it absent. -/
structure ProbeResult where
  name : Str
  status : TestStatus
  duration : Nat
  attempts : Nat
  error : Option Str
deriving DecidableEq, Repr

/-- `Math.pow(2, attempt) * 1000` (line 141): the backoff in
milliseconds slept before loop iteration `attempt` when `attempt > 0`. -/
def backoffMs (attempt : Nat) : Nat := 2 ^ attempt * 1000

/-- The retry loop of `executeTest`.  `f a` is the outcome of invoking
the probe body on loop iteration `a` (`none` = returns normally,
`some e` = throws with message `e`).  Also records, in order, the
backoff sleeps performed.  Structure mirrors lines 137-170: sleep when
`attempt > 0`, invoke, return passed on success, remember the error and
continue on failure, and after the loop return failed with the last
error. -/
def executeTestGo (name : Str) (f : Nat → Option Str) (retries attempt : Nat)
    (lastError : Option Str) (sleeps : List Nat) : ProbeResult × List Nat :=
  if attempt ≤ retries then
    let sleeps' := if 0 < attempt then sleeps ++ [backoffMs attempt] else sleeps
    match f attempt with
    | none =>
      ({ name := name, status := .passed, duration := 0,
         attempts := attempt + 1, error := none }, sleeps')
    | some e => executeTestGo name f retries (attempt + 1) (some e) sleeps'
  else
    ({ name := name, status := .failed, duration := 0,
       attempts := retries + 1, error := lastError }, sleeps)
termination_by retries + 1 - attempt

/-- `executeTest(testName, testFn, retries)` together with the trace of
backoff sleeps it performs. -/
def executeTestTrace (name : Str) (f : Nat → Option Str) (retries : Nat) :
    ProbeResult × List Nat :=
  executeTestGo name f retries 0 none []

/-- `executeTest(testName, testFn, retries)` (lines 133-171). -/
def executeTest (name : Str) (f : Nat → Option Str) (retries : Nat) : ProbeResult :=
  (executeTestTrace name f retries).1

/-! ## Test runner (`runTests`, smoke-tests.js lines 287-356) -/

structure Summary where
  total : Nat
  passed : Nat
  failed : Nat
  duration : Nat
deriving DecidableEq, Repr

structure RunReport where
  summary : Summary
  tests : List ProbeResult
deriving DecidableEq, Repr

/-- The `testResults` accumulator as initialised at lines 27-35. -/
def initialReport : RunReport :=
  { summary := { total := 0, passed := 0, failed := 0, duration := 0 }, tests := [] }

/-- One iteration of the runner loop (lines 307-322): run the test
through the retry scheduler, append its result, bump `total` and the
matching pass/fail counter. -/
def runStep (maxRetries : Nat) (rep : RunReport) (t : Str × (Nat → Option Str)) :
    RunReport :=
  let result := executeTest t.1 t.2 maxRetries
  let s := rep.summary
  if result.status = .passed then
    { summary := { s with total := s.total + 1, passed := s.passed + 1 },
      tests := rep.tests ++ [result] }
  else
    { summary := { s with total := s.total + 1, failed := s.failed + 1 },
      tests := rep.tests ++ [result] }

/-- `runTests` (lines 287-356), abstracted over the test list: the
source folds the fixed five-probe list through the same loop body. -/
def runTests (tests : List (Str × (Nat → Option Str))) (maxRetries : Nat) :
    RunReport :=
  tests.foldl (runStep maxRetries) initialReport

/-- The process exit status determined at lines 352-356 (and the
implicit normal exit 0 when no probe failed). -/
def exitCode (rep : RunReport) : Nat :=
  if rep.summary.failed > 0 then 1 else 0

/-! ## Probes (homepage and link integrity) -/

/-- The response shape `makeRequest` resolves with (lines 62-66).
Headers are an association list; Node lowercases incoming names. -/
structure FetchResponse where
  statusCode : Nat
  headers : List (Str × Str)
  body : Str

/-- Header access `response.headers[key]`. -/
def lookupHeader (headers : List (Str × Str)) (key : Str) : Option Str :=
  headers.lookup key

/-- JS `s.includes(pat)`: `pat` occurs contiguously in `s`. -/
def strIncludes (s pat : Str) : Bool :=
  pat.isPrefixOf s ||
    match s with
    | [] => false
    | _ :: t => strIncludes t pat

/-- `testHomepageLoads` (lines 176-191) applied to the fetched
response: `none` = probe passes, `some e` = probe throws `e`.  An
absent content-type header falls back to the empty string (line 183). -/
def testHomepageLoads (resp : FetchResponse) : Option Str :=
  if resp.statusCode ≠ 200 then
    some ("Expected status 200, got ".toList ++ (toString resp.statusCode).toList)
  else
    let contentType := (lookupHeader resp.headers "content-type".toList).getD []
    if !(strIncludes contentType "text/html".toList) then
      some ("Expected content-type to include text/html, got ".toList ++ contentType)
    else if resp.body.length = 0 then
      some "Response body is empty".toList
    else none

/-- The per-link check in the loop of `testNoBrokenLinks`
(lines 265-276): a link is broken when its fetch throws or returns a
status of 400 or above; the recorded detail is the status or the
error message. -/
def checkLink (fetch : Str → Except Str FetchResponse) (link : Str) :
    Option (Str × Str) :=
  match fetch link with
  | .error e => some (link, e)
  | .ok r => if r.statusCode ≥ 400 then some (link, (toString r.statusCode).toList) else none

/-- The failure message built at lines 279-280. -/
def brokenMessage (broken : List (Str × Str)) : Str :=
  "Found ".toList ++ (toString broken.length).toList ++ " broken links: ".toList ++
    List.intercalate ", ".toList
      (broken.map (fun b => b.1 ++ " (".toList ++ b.2 ++ ")".toList))

/-- `testNoBrokenLinks` (lines 249-282) over a fetch oracle, returning
the probe outcome (`none` = pass) together with the list of URLs
fetched, in order: the homepage first, then exactly the links checked. -/
def testNoBrokenLinks (fetch : Str → Except Str FetchResponse) (siteUrl : Str) :
    Option Str × List Str :=
  match fetch siteUrl with
  | .error e => (some e, [siteUrl])
  | .ok resp =>
    if resp.statusCode ≠ 200 then
      (some ("Homepage returned status ".toList ++ (toString resp.statusCode).toList),
       [siteUrl])
    else
      let links := extractLinks resp.body siteUrl
      let linksToCheck := links.take 20
      let brokenLinks := linksToCheck.filterMap (checkLink fetch)
      ((if brokenLinks.length > 0 then some (brokenMessage brokenLinks) else none),
       siteUrl :: linksToCheck)

/-- A concrete two-link homepage used to exercise the link probe. -/
def demoResp : FetchResponse :=
  { statusCode := 200, headers := [],
    body := "<a href=\"/x\"> <a href=\"/y\">".toList }

/-- A concrete fetch oracle: the demo homepage at the site URL, an empty
200 page everywhere else. -/
def demoFetch : Str → Except Str FetchResponse := fun u =>
  if u = "https://h".toList then .ok demoResp
  else .ok { statusCode := 200, headers := [], body := [] }

/-! ## Lemmas about `setDedup` (the JS `Set` semantics) -/

theorem mem_setDedup (l : List Str) (x : Str) : x ∈ setDedup l ↔ x ∈ l := by
  induction l using setDedup.induct with
  | case1 => simp [setDedup]
  | case2 y ys ih =>
    rw [setDedup]
    simp only [List.mem_cons, ih, List.mem_filter, decide_eq_true_eq]
    constructor
    · rintro (rfl | ⟨h, _⟩)
      · exact Or.inl rfl
      · exact Or.inr h
    · rintro (rfl | h)
      · exact Or.inl rfl
      · by_cases hx : x = y
        · exact Or.inl hx
        · exact Or.inr ⟨h, hx⟩

theorem nodup_setDedup (l : List Str) : (setDedup l).Nodup := by
  induction l using setDedup.induct with
  | case1 => simp [setDedup]
  | case2 y ys ih =>
    rw [setDedup]
    refine List.nodup_cons.2 ⟨fun hmem => ?_, ih⟩
    have := (mem_setDedup _ _).1 hmem
    simp at this

theorem setDedup_sublist (l : List Str) : (setDedup l).Sublist l := by
  induction l using setDedup.induct with
  | case1 => simp [setDedup]
  | case2 y ys ih =>
    rw [setDedup]
    exact List.Sublist.cons₂ y (ih.trans (List.filter_sublist ys))


theorem idxOfS_cons_self (a : Str) (l : List Str) : idxOfS a (a :: l) = 0 := by
  simp [idxOfS]

theorem idxOfS_cons_ne (a x : Str) (l : List Str) (h : x ≠ a) :
    idxOfS a (x :: l) = idxOfS a l + 1 := by
  simp [idxOfS, h]

theorem idxOfS_filter_lt_iff (p : Str → Bool) (l : List Str) (a b : Str)
    (ha : a ∈ l) (hb : b ∈ l) (hpa : p a = true) (hpb : p b = true) (hab : a ≠ b) :
    (idxOfS a (l.filter p) < idxOfS b (l.filter p) ↔ idxOfS a l < idxOfS b l) := by
  induction l with
  | nil => cases ha
  | cons y t ih =>
    by_cases hpy : p y = true
    · rw [List.filter_cons_of_pos hpy]
      by_cases hya : y = a
      · subst hya
        rw [idxOfS_cons_self, idxOfS_cons_ne b y _ hab, idxOfS_cons_self,
          idxOfS_cons_ne b y t hab]
        simp
      · by_cases hyb : y = b
        · subst hyb
          rw [idxOfS_cons_self, idxOfS_cons_ne a y _ hya, idxOfS_cons_self,
            idxOfS_cons_ne a y t hya]
          simp
        · have ha' : a ∈ t := by
            rcases List.mem_cons.1 ha with h | h
            · exact absurd h.symm hya
            · exact h
          have hb' : b ∈ t := by
            rcases List.mem_cons.1 hb with h | h
            · exact absurd h.symm hyb
            · exact h
          rw [idxOfS_cons_ne a y _ hya, idxOfS_cons_ne b y _ hyb,
            idxOfS_cons_ne a y t hya, idxOfS_cons_ne b y t hyb]
          simpa using ih ha' hb'
    · have hya : y ≠ a := fun h => hpy (h ▸ hpa)
      have hyb : y ≠ b := fun h => hpy (h ▸ hpb)
      have ha' : a ∈ t := by
        rcases List.mem_cons.1 ha with h | h
        · exact absurd h.symm hya
        · exact h
      have hb' : b ∈ t := by
        rcases List.mem_cons.1 hb with h | h
        · exact absurd h.symm hyb
        · exact h
      rw [List.filter_cons_of_neg (by simpa using hpy),
        idxOfS_cons_ne a y t hya, idxOfS_cons_ne b y t hyb]
      simpa using ih ha' hb'

theorem idxOfS_setDedup_lt_iff (l : List Str) (a b : Str)
    (ha : a ∈ l) (hb : b ∈ l) (hab : a ≠ b) :
    (idxOfS a (setDedup l) < idxOfS b (setDedup l) ↔ idxOfS a l < idxOfS b l) := by
  induction l using setDedup.induct with
  | case1 => cases ha
  | case2 y ys ih =>
    rw [setDedup]
    by_cases hya : y = a
    · subst hya
      rw [idxOfS_cons_self, idxOfS_cons_ne b y _ hab, idxOfS_cons_self,
        idxOfS_cons_ne b y ys hab]
      simp
    · by_cases hyb : y = b
      · subst hyb
        rw [idxOfS_cons_self, idxOfS_cons_ne a y _ hya, idxOfS_cons_self,
          idxOfS_cons_ne a y ys hya]
        simp
      · have ha' : a ∈ ys := by
          rcases List.mem_cons.1 ha with h | h
          · exact absurd h.symm hya
          · exact h
        have hb' : b ∈ ys := by
          rcases List.mem_cons.1 hb with h | h
          · exact absurd h.symm hyb
          · exact h
        have haf : a ∈ ys.filter (fun z => z ≠ y) := by
          simp only [List.mem_filter, decide_eq_true_eq]
          exact ⟨ha', fun h => hya h.symm⟩
        have hbf : b ∈ ys.filter (fun z => z ≠ y) := by
          simp only [List.mem_filter, decide_eq_true_eq]
          exact ⟨hb', fun h => hyb h.symm⟩
        rw [idxOfS_cons_ne a y _ hya, idxOfS_cons_ne b y _ hyb,
          idxOfS_cons_ne a y ys hya, idxOfS_cons_ne b y ys hyb]
        have step1 := ih haf hbf
        have step2 := idxOfS_filter_lt_iff (fun z => decide (z ≠ y)) ys a b ha' hb'
          (by simp only [decide_eq_true_eq]; exact fun h => hya h.symm)
          (by simp only [decide_eq_true_eq]; exact fun h => hyb h.symm) hab
        constructor
        · intro h
          exact Nat.succ_lt_succ ((step2.1 (step1.1 (Nat.lt_of_succ_lt_succ h))))
        · intro h
          exact Nat.succ_lt_succ ((step1.2 (step2.2 (Nat.lt_of_succ_lt_succ h))))

/-! ## Lemmas about the retry scheduler -/

theorem executeTestGo_inv (name : Str) (f : Nat → Option Str) (retries attempt : Nat)
    (lastError : Option Str) (sleeps : List Nat)
    (h : lastError.isSome = true ∨ attempt = 0) :
    1 ≤ ((executeTestGo name f retries attempt lastError sleeps).1).attempts ∧
    ((executeTestGo name f retries attempt lastError sleeps).1).attempts ≤ retries + 1 ∧
    (((executeTestGo name f retries attempt lastError sleeps).1).error.isSome = true ↔
      ((executeTestGo name f retries attempt lastError sleeps).1).status = .failed) ∧
    ((executeTestGo name f retries attempt lastError sleeps).1).name = name := by
  induction attempt, lastError, sleeps using executeTestGo.induct name f retries with
  | case1 attempt lastError sleeps hle hfa =>
    rw [executeTestGo, if_pos hle]
    simp only [hfa]
    exact ⟨Nat.succ_le_succ (Nat.zero_le _), Nat.succ_le_succ hle, by simp, by trivial⟩
  | case2 attempt lastError sleeps hle sleeps' e hfa ih =>
    rw [executeTestGo, if_pos hle]
    simp only [hfa]
    exact ih (Or.inl rfl)
  | case3 attempt lastError sleeps hle =>
    rw [executeTestGo, if_neg hle]
    rcases h with h | h
    · exact ⟨Nat.succ_le_succ (Nat.zero_le _), Nat.le_refl _, by simp [h], by trivial⟩
    · omega

theorem executeTestGo_allFail (name : Str) (f : Nat → Option Str) (retries attempt : Nat)
    (lastError : Option Str) (sleeps : List Nat)
    (hle : attempt ≤ retries)
    (hall : ∀ a, attempt ≤ a → a ≤ retries → (f a).isSome = true) :
    (executeTestGo name f retries attempt lastError sleeps).1 =
      { name := name, status := .failed, duration := 0,
        attempts := retries + 1, error := f retries } := by
  induction attempt, lastError, sleeps using executeTestGo.induct name f retries with
  | case1 attempt lastError sleeps hle' hfa =>
    have := hall attempt (Nat.le_refl _) hle'
    rw [hfa] at this
    simp at this
  | case2 attempt lastError sleeps hle' sleeps' e hfa ih =>
    rw [executeTestGo, if_pos hle']
    simp only [hfa]
    rcases Nat.lt_or_ge attempt retries with hlt | hge
    · exact ih (Nat.succ_le_of_lt hlt) (fun a h1 h2 => hall a (Nat.le_of_succ_le h1) h2)
    · have heq : attempt = retries := Nat.le_antisymm hle' hge
      subst heq
      rw [executeTestGo, if_neg (by omega)]
      rw [← hfa]
  | case3 attempt lastError sleeps hle' =>
    exact absurd hle hle'

theorem executeTestGo_succAt (name : Str) (f : Nat → Option Str) (retries k attempt : Nat)
    (lastError : Option Str) (sleeps : List Nat)
    (hak : attempt ≤ k) (hkr : k ≤ retries)
    (hbefore : ∀ a, attempt ≤ a → a < k → (f a).isSome = true) (hk : f k = none) :
    (executeTestGo name f retries attempt lastError sleeps).1 =
      { name := name, status := .passed, duration := 0,
        attempts := k + 1, error := none } := by
  induction attempt, lastError, sleeps using executeTestGo.induct name f retries with
  | case1 attempt lastError sleeps hle' hfa =>
    rcases Nat.lt_or_ge attempt k with hlt | hge
    · have := hbefore attempt (Nat.le_refl _) hlt
      rw [hfa] at this
      simp at this
    · have heq : attempt = k := Nat.le_antisymm hak hge
      subst heq
      rw [executeTestGo, if_pos hle']
      simp only [hfa]
  | case2 attempt lastError sleeps hle' sleeps' e hfa ih =>
    have hne : attempt ≠ k := by
      intro h
      rw [h, hk] at hfa
      cases hfa
    have hlt : attempt < k := Nat.lt_of_le_of_ne hak hne
    rw [executeTestGo, if_pos hle']
    simp only [hfa]
    exact ih (Nat.succ_le_of_lt hlt)
      (fun a h1 h2 => hbefore a (Nat.le_of_succ_le h1) h2)
  | case3 attempt lastError sleeps hle' =>
    exact absurd (Nat.le_trans hak hkr) hle'

theorem executeTestGo_attempts_ge (name : Str) (f : Nat → Option Str)
    (retries attempt : Nat) (lastError : Option Str) (sleeps : List Nat)
    (hle : attempt ≤ retries) :
    attempt + 1 ≤ ((executeTestGo name f retries attempt lastError sleeps).1).attempts := by
  induction attempt, lastError, sleeps using executeTestGo.induct name f retries with
  | case1 attempt lastError sleeps hle' hfa =>
    rw [executeTestGo, if_pos hle']
    simp only [hfa]
    exact Nat.le_refl _
  | case2 attempt lastError sleeps hle' sleeps' e hfa ih =>
    rw [executeTestGo, if_pos hle']
    simp only [hfa]
    rcases Nat.lt_or_ge attempt retries with hlt | hge
    · exact Nat.le_of_succ_le (ih (Nat.succ_le_of_lt hlt))
    · have heq : attempt = retries := Nat.le_antisymm hle' hge
      subst heq
      rw [executeTestGo, if_neg (by omega)]
  | case3 attempt lastError sleeps hle' =>
    exact absurd hle hle'

theorem executeTestGo_sleeps (name : Str) (f : Nat → Option Str)
    (retries attempt : Nat) (lastError : Option Str) (sleeps : List Nat)
    (h1 : 1 ≤ attempt) :
    (executeTestGo name f retries attempt lastError sleeps).2 =
      sleeps ++ (List.range' attempt
        (((executeTestGo name f retries attempt lastError sleeps).1).attempts - attempt)).map
          backoffMs := by
  induction attempt, lastError, sleeps using executeTestGo.induct name f retries with
  | case1 attempt lastError sleeps hle' hfa =>
    rw [executeTestGo, if_pos hle']
    simp only [hfa, if_pos (Nat.lt_of_lt_of_le Nat.zero_lt_one h1)]
    simp [Nat.add_sub_cancel_left, List.range'_one]
  | case2 attempt lastError sleeps hle' sleeps' e hfa ih =>
    have hpos : 0 < attempt := h1
    have hs : sleeps' = sleeps ++ [backoffMs attempt] := by
      simp only [sleeps']
      rw [dif_pos hpos]
    rw [executeTestGo, if_pos hle']
    simp only [hfa, if_pos hpos]
    rw [hs] at ih
    rw [ih (Nat.le_succ_of_le h1)]
    have hge := executeTestGo_attempts_ge name f retries (attempt + 1) (some e)
    rcases Nat.lt_or_ge retries (attempt + 1) with hgt | hle2
    · have : attempt = retries := by omega
      subst this
      rw [executeTestGo, if_neg (by omega)]
      simp [Nat.add_sub_cancel_left, List.range'_one]
    · have hb := hge (sleeps ++ [backoffMs attempt]) hle2
      set att := ((executeTestGo name f retries (attempt + 1) (some e)
        (sleeps ++ [backoffMs attempt])).1).attempts with hatt
      have hsplit : att - attempt = (att - (attempt + 1)) + 1 := by omega
      rw [hsplit, List.range'_succ, List.map_cons]
      simp
  | case3 attempt lastError sleeps hle' =>
    rw [executeTestGo, if_neg hle']
    have : attempt ≥ retries + 1 := by omega
    simp [Nat.sub_eq_zero_of_le this]

theorem executeTest_inv (name : Str) (f : Nat → Option Str) (retries : Nat) :
    1 ≤ (executeTest name f retries).attempts ∧
    (executeTest name f retries).attempts ≤ retries + 1 ∧
    ((executeTest name f retries).error.isSome = true ↔
      (executeTest name f retries).status = .failed) ∧
    (executeTest name f retries).name = name := by
  have h := executeTestGo_inv name f retries 0 none [] (Or.inr rfl)
  exact ⟨h.1, h.2.1, h.2.2.1, h.2.2.2⟩

/-- **C2**: an action that fails on all `maxRetries + 1` invocations makes
`executeTest` return `status = failed`, `attempts = maxRetries + 1`, and
`error` equal to the message of the last (final) attempt. -/
theorem retry_exhaustion (name : Str) (f : Nat → Option Str) (retries : Nat)
    (hall : ∀ a, a ≤ retries → (f a).isSome = true) :
    executeTest name f retries =
      { name := name, status := .failed, duration := 0,
        attempts := retries + 1, error := f retries } :=
  executeTestGo_allFail name f retries 0 none [] (Nat.zero_le retries)
    (fun a _ h2 => hall a h2)

theorem retry_exhaustion_witness :
    (∀ a, a ≤ 2 → ((fun _ => some ['b'] : Nat → Option Str) a).isSome = true) ∧
    executeTest "t".toList (fun _ => some ['b']) 2 =
      { name := "t".toList, status := .failed, duration := 0,
        attempts := 3, error := some ['b'] } :=
  ⟨fun _ _ => rfl, retry_exhaustion "t".toList (fun _ => some ['b']) 2 (fun _ _ => rfl)⟩

/-- **C3**: an action that first succeeds on (1-indexed) attempt `k`, with
`1 ≤ k ≤ maxRetries + 1` and the `k - 1` attempts before it failing, makes
`executeTest` return `status = passed` with `attempts = k`. -/
theorem retry_success_at (name : Str) (f : Nat → Option Str) (retries k : Nat)
    (hk1 : 1 ≤ k) (hk2 : k ≤ retries + 1)
    (hbefore : ∀ a, a + 1 < k → (f a).isSome = true)
    (hsucc : f (k - 1) = none) :
    executeTest name f retries =
      { name := name, status := .passed, duration := 0,
        attempts := k, error := none } := by
  have h := executeTestGo_succAt name f retries (k - 1) 0 none []
    (Nat.zero_le _) (by omega)
    (fun a _ h2 => hbefore a (by omega)) hsucc
  rw [executeTest, executeTestTrace, h]
  have : k - 1 + 1 = k := by omega
  rw [this]

theorem retry_success_at_witness :
    (1 ≤ 2 ∧ 2 ≤ 2 + 1 ∧
      (∀ a, a + 1 < 2 →
        ((fun a => if a = 0 then some ['e'] else none : Nat → Option Str) a).isSome = true) ∧
      (fun a => if a = 0 then some ['e'] else none : Nat → Option Str) (2 - 1) = none) ∧
    executeTest "t".toList (fun a => if a = 0 then some ['e'] else none) 2 =
      { name := "t".toList, status := .passed, duration := 0,
        attempts := 2, error := none } :=
  ⟨⟨by omega, by omega, fun a h => by
      have ha : a = 0 := by omega
      rw [ha]
      rfl, rfl⟩,
    retry_success_at "t".toList (fun a => if a = 0 then some ['e'] else none) 2 2
      (by omega) (by omega) (fun a h => by
      have ha : a = 0 := by omega
      rw [ha]
      rfl) rfl⟩

/-- **C4**: the backoff sleeps `executeTest` performs are exactly one per
retry, in order, the one before (1-indexed) retry `a` lasting
`2 ^ a * 1000` milliseconds, i.e. `2^a` seconds (2s, 4s, 8s, ...); the
trace has `attempts - 1` entries, so no delay precedes the initial
attempt. -/
theorem backoff_schedule (name : Str) (f : Nat → Option Str) (retries : Nat) :
    (executeTestTrace name f retries).2 =
      (List.range' 1 ((executeTestTrace name f retries).1.attempts - 1)).map
        (fun a => 2 ^ a * 1000) := by
  rw [executeTestTrace]
  rw [executeTestGo, if_pos (Nat.zero_le retries)]
  cases hf0 : f 0 with
  | none => simp
  | some e =>
    simp only []
    have h := executeTestGo_sleeps name f retries 1 (some e)
      (if 0 < 0 then [] ++ [backoffMs 0] else []) (Nat.le_refl 1)
    simp only [if_neg (by omega : ¬ 0 < 0)] at h ⊢
    rw [h]
    simp [backoffMs]

/-! ## Lemmas about the test runner -/

theorem runStep_facts (maxRetries : Nat) (rep : RunReport)
    (t : Str × (Nat → Option Str)) :
    (runStep maxRetries rep t).summary.total = rep.summary.total + 1 ∧
    (runStep maxRetries rep t).summary.passed + (runStep maxRetries rep t).summary.failed
      = rep.summary.passed + rep.summary.failed + 1 ∧
    (runStep maxRetries rep t).tests = rep.tests ++ [executeTest t.1 t.2 maxRetries] := by
  rw [runStep]
  by_cases h : (executeTest t.1 t.2 maxRetries).status = .passed
  · rw [if_pos h]
    refine ⟨rfl, ?_, rfl⟩
    show rep.summary.passed + 1 + rep.summary.failed
      = rep.summary.passed + rep.summary.failed + 1
    omega
  · rw [if_neg h]
    refine ⟨rfl, ?_, rfl⟩
    show rep.summary.passed + (rep.summary.failed + 1)
      = rep.summary.passed + rep.summary.failed + 1
    omega

theorem foldl_runStep_inv (maxRetries : Nat) (ts : List (Str × (Nat → Option Str))) :
    ∀ rep : RunReport,
    (List.foldl (runStep maxRetries) rep ts).summary.total
        = rep.summary.total + ts.length ∧
    (List.foldl (runStep maxRetries) rep ts).summary.passed +
        (List.foldl (runStep maxRetries) rep ts).summary.failed
      = rep.summary.passed + rep.summary.failed + ts.length ∧
    (List.foldl (runStep maxRetries) rep ts).tests.length
      = rep.tests.length + ts.length ∧
    (∀ r, r ∈ (List.foldl (runStep maxRetries) rep ts).tests → r ∈ rep.tests ∨
      (1 ≤ r.attempts ∧ r.attempts ≤ maxRetries + 1 ∧
        (r.error.isSome = true ↔ r.status = .failed))) := by
  induction ts with
  | nil =>
    intro rep
    exact ⟨by simp, by simp, by simp, fun r hr => Or.inl (by simpa using hr)⟩
  | cons t ts ih =>
    intro rep
    rw [List.foldl_cons]
    obtain ⟨ht, hp, hl, hm⟩ := ih (runStep maxRetries rep t)
    obtain ⟨st, sp, stests⟩ := runStep_facts maxRetries rep t
    refine ⟨?_, ?_, ?_, ?_⟩
    · rw [ht, st, List.length_cons]; omega
    · rw [hp, sp, List.length_cons]; omega
    · rw [hl, stests, List.length_append, List.length_cons]; simp; omega
    · intro r hr
      rcases hm r hr with hmem | hgood
      · rw [stests] at hmem
        rcases List.mem_append.1 hmem with h | h
        · exact Or.inl h
        · right
          have heq : r = executeTest t.1 t.2 maxRetries := by simpa using h
          subst heq
          obtain ⟨h1, h2, h3, _⟩ := executeTest_inv t.1 t.2 maxRetries
          exact ⟨h1, h2, h3⟩
      · exact Or.inr hgood

/-- **C1**: for every run of the test runner, the finalized report has
`summary.total` equal to the length of its `tests` list (and to the
number of probes run), `summary.passed + summary.failed = summary.total`,
and every `ProbeResult` in it has `1 ≤ attempts ≤ maxRetries + 1` and
its `error` set if and only if its `status` is `failed`. -/
theorem runner_invariants (tests : List (Str × (Nat → Option Str))) (maxRetries : Nat) :
    (runTests tests maxRetries).summary.total = (runTests tests maxRetries).tests.length ∧
    (runTests tests maxRetries).summary.total = tests.length ∧
    (runTests tests maxRetries).summary.passed + (runTests tests maxRetries).summary.failed
      = (runTests tests maxRetries).summary.total ∧
    ∀ r, r ∈ (runTests tests maxRetries).tests →
      1 ≤ r.attempts ∧ r.attempts ≤ maxRetries + 1 ∧
      (r.error.isSome = true ↔ r.status = .failed) := by
  obtain ⟨ht, hp, hl, hm⟩ := foldl_runStep_inv maxRetries tests initialReport
  rw [runTests]
  refine ⟨?_, ?_, ?_, ?_⟩
  · rw [ht, hl]
    simp [initialReport]
  · rw [ht]
    simp [initialReport]
  · rw [hp, ht]
    simp [initialReport]
  · intro r hr
    rcases hm r hr with h | h
    · simp [initialReport] at h
    · exact h

theorem runner_invariants_witness :
    ((runTests [("a".toList, fun _ => none), ("b".toList, fun _ => some ['x'])] 2).summary.passed +
      (runTests [("a".toList, fun _ => none), ("b".toList, fun _ => some ['x'])] 2).summary.failed
        = (runTests [("a".toList, fun _ => none), ("b".toList, fun _ => some ['x'])] 2).summary.total) ∧
    ({ name := "b".toList, status := .failed, duration := 0, attempts := 3,
       error := some ['x'] } : ProbeResult) ∈
      (runTests [("a".toList, fun _ => none), ("b".toList, fun _ => some ['x'])] 2).tests ∧
    (1 ≤ (3 : Nat) ∧ (3 : Nat) ≤ 2 + 1 ∧
      ((some ['x'] : Option Str).isSome = true ↔ TestStatus.failed = TestStatus.failed)) :=
  ⟨(runner_invariants [("a".toList, fun _ => none), ("b".toList, fun _ => some ['x'])] 2).2.2.1,
   by simp [runTests, runStep, executeTest, executeTestTrace, executeTestGo, initialReport],
   (runner_invariants [("a".toList, fun _ => none), ("b".toList, fun _ => some ['x'])] 2).2.2.2
     { name := "b".toList, status := .failed, duration := 0, attempts := 3, error := some ['x'] }
     (by simp [runTests, runStep, executeTest, executeTestTrace, executeTestGo, initialReport])⟩

/-- **C8**: the process exit status of a completed run is 0 exactly when
`summary.failed = 0` and 1 otherwise; a run with zero probes exits 0. -/
theorem exit_code_spec (tests : List (Str × (Nat → Option Str))) (maxRetries : Nat) :
    (exitCode (runTests tests maxRetries) = 0 ↔
      (runTests tests maxRetries).summary.failed = 0) ∧
    ((runTests tests maxRetries).summary.failed ≠ 0 →
      exitCode (runTests tests maxRetries) = 1) ∧
    exitCode (runTests [] maxRetries) = 0 := by
  refine ⟨?_, ?_, rfl⟩
  · rw [exitCode]
    rcases Nat.eq_zero_or_pos (runTests tests maxRetries).summary.failed with h | h
    · simp [h]
    · rw [if_pos h]
      simp
      omega
  · intro h
    rw [exitCode, if_pos (Nat.pos_of_ne_zero h)]

theorem exit_code_spec_witness :
    ((runTests [("b".toList, fun _ => some ['x'])] 0).summary.failed ≠ 0) ∧
    exitCode (runTests [("b".toList, fun _ => some ['x'])] 0) = 1 :=
  ⟨by simp [runTests, runStep, executeTest, executeTestTrace, executeTestGo, initialReport],
   (exit_code_spec [("b".toList, fun _ => some ['x'])] 0).2.1
     (by simp [runTests, runStep, executeTest, executeTestTrace, executeTestGo, initialReport])⟩

/-! ## Probe claims -/

/-- **C10**: a homepage response with no content-type header at all makes
the homepage probe fail (the absent header becomes the empty string,
which does not contain `text/html`); the probe passes exactly when the
status is 200, a content-type header is present and contains
`text/html`, and the body is non-empty. -/
theorem homepage_probe_content_type (resp : FetchResponse) :
    (lookupHeader resp.headers "content-type".toList = none →
      (testHomepageLoads resp).isSome = true) ∧
    (testHomepageLoads resp = none ↔
      (resp.statusCode = 200 ∧
       (∃ v, lookupHeader resp.headers "content-type".toList = some v ∧
         strIncludes v "text/html".toList = true) ∧
       resp.body ≠ [])) := by
  have hnil : strIncludes [] ['t','e','x','t','/','h','t','m','l'] = false := rfl
  constructor
  · intro hnone
    rw [testHomepageLoads]
    by_cases h200 : resp.statusCode ≠ 200
    · rw [if_pos h200]
      rfl
    · rw [if_neg h200, hnone]
      simp [hnil]
  · rw [testHomepageLoads]
    by_cases h200 : resp.statusCode ≠ 200
    · rw [if_pos h200]
      simp only [reduceCtorEq, false_iff, not_and]
      intro h
      exact absurd h h200
    · rw [if_neg h200]
      push_neg at h200
      cases hct : lookupHeader resp.headers "content-type".toList with
      | none =>
        simp [hnil]
      | some v =>
        by_cases hinc : strIncludes v "text/html".toList = true
        · simp only [Option.getD_some, Bool.not_eq_true', hinc, Bool.not_true,
            Bool.false_eq_true, if_false]
          by_cases hbody : resp.body = []
          · rw [if_pos (by simp [hbody])]
            simp [hbody]
          · rw [if_neg (by simp [List.length_eq_zero, hbody])]
            simp only [true_iff]
            exact ⟨h200, ⟨v, rfl, hinc⟩, hbody⟩
        · have hfalse : strIncludes v "text/html".toList = false := by
            simpa using hinc
          simp only [Option.getD_some, hfalse, Bool.not_false, if_true]
          simp only [reduceCtorEq, false_iff, not_and]
          intro _ hex
          rcases hex with ⟨w, hw, hwin⟩
          have hvw : v = w := by injection hw
          rw [← hvw] at hwin
          exact absurd hwin hinc

theorem homepage_probe_content_type_witness :
    (lookupHeader (FetchResponse.mk 200 [] ['x']).headers "content-type".toList = none) ∧
    (testHomepageLoads (FetchResponse.mk 200 [] ['x'])).isSome = true :=
  ⟨rfl, (homepage_probe_content_type (FetchResponse.mk 200 [] ['x'])).1 rfl⟩

/-- **C7**: when the homepage fetch succeeds with status 200, the
link-integrity probe fetches the homepage and then exactly the first 20
extracted links, in order; when 20 or fewer links are extracted it
fetches them all; no link beyond the 20th is among those checked. -/
theorem link_probe_bounded (fetch : Str → Except Str FetchResponse) (siteUrl : Str)
    (resp : FetchResponse) (hok : fetch siteUrl = .ok resp)
    (h200 : resp.statusCode = 200) :
    (testNoBrokenLinks fetch siteUrl).2 =
      siteUrl :: (extractLinks resp.body siteUrl).take 20 ∧
    ((extractLinks resp.body siteUrl).length ≤ 20 →
      (extractLinks resp.body siteUrl).take 20 = extractLinks resp.body siteUrl) ∧
    (∀ l, l ∈ (extractLinks resp.body siteUrl).drop 20 →
      l ∉ (extractLinks resp.body siteUrl).take 20) := by
  refine ⟨?_, fun h => List.take_of_length_le h, fun l hd ht => ?_⟩
  · simp [testNoBrokenLinks, hok, h200]
  · have hnd : (extractLinks resp.body siteUrl).Nodup := nodup_setDedup _
    exact List.disjoint_take_drop hnd (Nat.le_refl 20) ht hd

/-! ## Link-extractor claims -/

theorem splitUrlGo_scheme (scheme : Str) (hscheme : ∀ c ∈ scheme, c ≠ ':') :
    ∀ acc rest, splitUrlGo acc (scheme ++ ':' :: '/' :: '/' :: rest) =
      some (acc ++ scheme ++ [':'], rest) := by
  induction scheme with
  | nil =>
    intro acc rest
    rw [List.nil_append, splitUrlGo, if_pos ⟨rfl, by simp [List.isPrefixOf]⟩]
    simp
  | cons c cs ih =>
    intro acc rest
    rw [List.cons_append, splitUrlGo,
      if_neg (fun hc => absurd hc.1 (hscheme c (List.mem_cons_self c cs)))]
    rw [ih (fun d hd => hscheme d (List.mem_cons_of_mem c hd)) (acc ++ [c]) rest]
    simp

theorem splitUrl_scheme (scheme rest : Str) (hscheme : ∀ c ∈ scheme, c ≠ ':') :
    splitUrl (scheme ++ ':' :: '/' :: '/' :: rest) = some (scheme ++ [':'], rest) := by
  rw [splitUrl, splitUrlGo_scheme scheme hscheme [] rest]
  simp

theorem takeWhile_append_all (p : Char → Bool) (xs ys : Str)
    (hxs : ∀ c ∈ xs, p c = true)
    (hys : ys = [] ∨ ∃ c t, ys = c :: t ∧ p c = false) :
    List.takeWhile p (xs ++ ys) = xs := by
  induction xs with
  | nil =>
    rcases hys with rfl | ⟨c, t, rfl, hc⟩
    · rfl
    · simp [List.takeWhile_cons, hc]
  | cons x xt ih =>
    rw [List.cons_append, List.takeWhile_cons,
      hxs x (List.mem_cons_self x xt)]
    rw [ih (fun c hc => hxs c (List.mem_cons_of_mem x hc))]
    simp

theorem urlProtocol_scheme (scheme rest : Str) (hscheme : ∀ c ∈ scheme, c ≠ ':') :
    urlProtocol (scheme ++ ':' :: '/' :: '/' :: rest) = scheme ++ [':'] := by
  rw [urlProtocol, splitUrl_scheme scheme rest hscheme]

theorem urlHost_scheme (scheme host tail : Str)
    (hscheme : ∀ c ∈ scheme, c ≠ ':')
    (hhost : ∀ c ∈ host, ¬(c = '/' ∨ c = '?' ∨ c = '#'))
    (htail : tail = [] ∨ ∃ c t, tail = c :: t ∧ (c = '/' ∨ c = '?' ∨ c = '#')) :
    urlHost (scheme ++ ':' :: '/' :: '/' :: (host ++ tail)) = host := by
  rw [urlHost, splitUrl_scheme scheme (host ++ tail) hscheme]
  refine takeWhile_append_all _ host tail (fun c hc => ?_) ?_
  · have h' := hhost c hc
    push_neg at h'
    simp [h'.1, h'.2.1, h'.2.2]
  · rcases htail with rfl | ⟨c, t, rfl, hc⟩
    · exact Or.inl rfl
    · refine Or.inr ⟨c, t, rfl, ?_⟩
      rcases hc with rfl | rfl | rfl <;> rfl

/-- **C5**: every element of the extracted `LinkSet` comes from a scanned
href that is not fragment-only and does not start with `javascript:`,
`mailto:` or `tel:`, and its parsed host equals the base URL's host. -/
theorem link_extraction_filters (html baseUrl u : Str)
    (hu : u ∈ extractLinks html baseUrl) :
    (∃ h, h ∈ scanHrefs html ∧
      "#".toList.isPrefixOf h = false ∧
      "javascript:".toList.isPrefixOf h = false ∧
      "mailto:".toList.isPrefixOf h = false ∧
      "tel:".toList.isPrefixOf h = false ∧
      u = resolveHref baseUrl h) ∧
    urlHost u = urlHost baseUrl := by
  have hraw : u ∈ rawLinks html baseUrl := (mem_setDedup _ _).1 hu
  rw [rawLinks] at hraw
  rcases List.mem_filterMap.1 hraw with ⟨h, hmem, hproc⟩
  simp only [processHref] at hproc
  by_cases hex : excludedHref h = true
  · rw [if_pos hex] at hproc
    cases hproc
  · rw [if_neg hex] at hproc
    by_cases hhost : urlHost (resolveHref baseUrl h) = urlHost baseUrl
    · rw [if_pos hhost] at hproc
      have hu' : resolveHref baseUrl h = u := by injection hproc
      simp only [excludedHref, Bool.or_eq_true, not_or, Bool.not_eq_true] at hex
      exact ⟨⟨h, hmem, hex.1.1.1, hex.1.1.2, hex.1.2, hex.2, hu'.symm⟩,
        hu' ▸ hhost⟩
    · rw [if_neg hhost] at hproc
      cases hproc

theorem link_extraction_filters_witness :
    ("https://ex.com/x".toList ∈
      extractLinks "<a href=\"/x\"> <a href=\"#top\"> <a href=\"mailto:a@b\">".toList
        "https://ex.com".toList) ∧
    ((∃ h, h ∈ scanHrefs "<a href=\"/x\"> <a href=\"#top\"> <a href=\"mailto:a@b\">".toList ∧
      "#".toList.isPrefixOf h = false ∧
      "javascript:".toList.isPrefixOf h = false ∧
      "mailto:".toList.isPrefixOf h = false ∧
      "tel:".toList.isPrefixOf h = false ∧
      "https://ex.com/x".toList = resolveHref "https://ex.com".toList h) ∧
     urlHost "https://ex.com/x".toList = urlHost "https://ex.com".toList) :=
  ⟨(mem_setDedup _ _).2 (by decide),
   link_extraction_filters _ _ _ ((mem_setDedup _ _).2 (by decide))⟩

/-- **C6**: the extracted `LinkSet` has no duplicate resolved URL (the
same href twice yields one element), is a subsequence of the raw
resolved-link sequence with the same members, and lists URLs in the
order of their first occurrence in the HTML. -/
theorem link_extraction_dedup (html baseUrl : Str) :
    (extractLinks html baseUrl).Nodup ∧
    (extractLinks html baseUrl).Sublist (rawLinks html baseUrl) ∧
    (∀ u, u ∈ extractLinks html baseUrl ↔ u ∈ rawLinks html baseUrl) ∧
    (∀ a b, a ∈ extractLinks html baseUrl → b ∈ extractLinks html baseUrl → a ≠ b →
      (idxOfS a (extractLinks html baseUrl) < idxOfS b (extractLinks html baseUrl) ↔
        idxOfS a (rawLinks html baseUrl) < idxOfS b (rawLinks html baseUrl))) := by
  refine ⟨nodup_setDedup _, setDedup_sublist _, fun u => mem_setDedup _ u,
    fun a b ha hb hab => ?_⟩
  exact idxOfS_setDedup_lt_iff _ a b ((mem_setDedup _ _).1 ha)
    ((mem_setDedup _ _).1 hb) hab

theorem link_extraction_dedup_witness :
    ("http://h/b".toList ∈
        extractLinks "<a href=\"b\"> <a href=\"a\"> <a href=\"b\">".toList "http://h".toList ∧
      "http://h/a".toList ∈
        extractLinks "<a href=\"b\"> <a href=\"a\"> <a href=\"b\">".toList "http://h".toList ∧
      "http://h/b".toList ≠ "http://h/a".toList) ∧
    (extractLinks "<a href=\"b\"> <a href=\"a\"> <a href=\"b\">".toList "http://h".toList).Nodup ∧
    (idxOfS "http://h/b".toList
        (extractLinks "<a href=\"b\"> <a href=\"a\"> <a href=\"b\">".toList "http://h".toList) <
      idxOfS "http://h/a".toList
        (extractLinks "<a href=\"b\"> <a href=\"a\"> <a href=\"b\">".toList "http://h".toList) ↔
      idxOfS "http://h/b".toList
        (rawLinks "<a href=\"b\"> <a href=\"a\"> <a href=\"b\">".toList "http://h".toList) <
      idxOfS "http://h/a".toList
        (rawLinks "<a href=\"b\"> <a href=\"a\"> <a href=\"b\">".toList "http://h".toList)) :=
  ⟨⟨(mem_setDedup _ _).2 (by decide), (mem_setDedup _ _).2 (by decide), by decide⟩,
   (link_extraction_dedup "<a href=\"b\"> <a href=\"a\"> <a href=\"b\">".toList "http://h".toList).1,
   (link_extraction_dedup "<a href=\"b\"> <a href=\"a\"> <a href=\"b\">".toList "http://h".toList).2.2.2
     "http://h/b".toList "http://h/a".toList
     ((mem_setDedup _ _).2 (by decide)) ((mem_setDedup _ _).2 (by decide)) (by decide)⟩

/-- **C9**: a protocol-relative href `//…` is not treated as an absolute
URL (it fails both the `http://` and `https://` tests); because it starts
with `/` it is resolved as base scheme + `//` + base host + href, whose
parsed host equals the base host, so the link is retained in the
`LinkSet` with the foreign authority embedded in its path rather than
excluded as cross-domain. -/
theorem protocol_relative_links_kept (html scheme host tail t : Str)
    (hscheme : ∀ c ∈ scheme, c ≠ ':')
    (hhost : ∀ c ∈ host, ¬(c = '/' ∨ c = '?' ∨ c = '#'))
    (htail : tail = [] ∨ ∃ c t2, tail = c :: t2 ∧ (c = '/' ∨ c = '?' ∨ c = '#'))
    (hmem : ('/' :: '/' :: t) ∈ scanHrefs html) :
    ("http://".toList.isPrefixOf ('/' :: '/' :: t) = false ∧
     "https://".toList.isPrefixOf ('/' :: '/' :: t) = false) ∧
    resolveHref (scheme ++ ':' :: '/' :: '/' :: (host ++ tail)) ('/' :: '/' :: t) =
      scheme ++ ':' :: '/' :: '/' :: (host ++ '/' :: '/' :: t) ∧
    urlHost (scheme ++ ':' :: '/' :: '/' :: (host ++ '/' :: '/' :: t)) =
      urlHost (scheme ++ ':' :: '/' :: '/' :: (host ++ tail)) ∧
    (scheme ++ ':' :: '/' :: '/' :: (host ++ '/' :: '/' :: t)) ∈
      extractLinks html (scheme ++ ':' :: '/' :: '/' :: (host ++ tail)) := by
  have f1 : "http://".toList.isPrefixOf ('/' :: '/' :: t) = false := by
    simp [List.isPrefixOf]
  have f2 : "https://".toList.isPrefixOf ('/' :: '/' :: t) = false := by
    simp [List.isPrefixOf]
  have f4 : urlProtocol (scheme ++ ':' :: '/' :: '/' :: (host ++ tail)) =
      scheme ++ [':'] := urlProtocol_scheme scheme (host ++ tail) hscheme
  have f5 : urlHost (scheme ++ ':' :: '/' :: '/' :: (host ++ tail)) = host :=
    urlHost_scheme scheme host tail hscheme hhost htail
  have f7 : urlHost (scheme ++ ':' :: '/' :: '/' :: (host ++ '/' :: '/' :: t)) = host :=
    urlHost_scheme scheme host ('/' :: '/' :: t) hscheme hhost
      (Or.inr ⟨'/', '/' :: t, rfl, Or.inl rfl⟩)
  have f6 : resolveHref (scheme ++ ':' :: '/' :: '/' :: (host ++ tail)) ('/' :: '/' :: t) =
      scheme ++ ':' :: '/' :: '/' :: (host ++ '/' :: '/' :: t) := by
    rw [resolveHref, if_neg (by simp [f1, f2]), if_pos (by simp [List.isPrefixOf])]
    rw [f4, f5]
    simp
  have f8 : excludedHref ('/' :: '/' :: t) = false := by
    simp [excludedHref, List.isPrefixOf]
  have f9 : processHref (scheme ++ ':' :: '/' :: '/' :: (host ++ tail)) ('/' :: '/' :: t) =
      some (scheme ++ ':' :: '/' :: '/' :: (host ++ '/' :: '/' :: t)) := by
    rw [processHref, if_neg (by simp [f8])]
    show (if urlHost (resolveHref (scheme ++ ':' :: '/' :: '/' :: (host ++ tail))
            ('/' :: '/' :: t)) =
          urlHost (scheme ++ ':' :: '/' :: '/' :: (host ++ tail)) then
        some (resolveHref (scheme ++ ':' :: '/' :: '/' :: (host ++ tail))
          ('/' :: '/' :: t))
      else none) = _
    rw [if_pos (by rw [f6, f7, f5]), f6]
  refine ⟨⟨f1, f2⟩, f6, f7.trans f5.symm, ?_⟩
  exact (mem_setDedup _ _).2 (List.mem_filterMap.2 ⟨'/' :: '/' :: t, hmem, f9⟩)

theorem protocol_relative_links_kept_witness :
    (('/' :: '/' :: "evil.com/x".toList) ∈
        scanHrefs "<a href=\"//evil.com/x\">".toList ∧
      (∀ c ∈ "https".toList, c ≠ ':') ∧
      (∀ c ∈ "example.com".toList, ¬(c = '/' ∨ c = '?' ∨ c = '#'))) ∧
    ("https".toList ++ ':' :: '/' :: '/' ::
        ("example.com".toList ++ '/' :: '/' :: "evil.com/x".toList)) ∈
      extractLinks "<a href=\"//evil.com/x\">".toList
        ("https".toList ++ ':' :: '/' :: '/' :: ("example.com".toList ++ ([] : Str))) :=
  ⟨⟨by decide, by decide, by decide⟩,
   (protocol_relative_links_kept "<a href=\"//evil.com/x\">".toList "https".toList
      "example.com".toList [] "evil.com/x".toList
      (by decide) (by decide) (Or.inl rfl) (by decide)).2.2.2⟩

theorem link_probe_bounded_witness :
    (demoFetch "https://h".toList = Except.ok demoResp ∧ demoResp.statusCode = 200) ∧
    (testNoBrokenLinks demoFetch "https://h".toList).2 =
      "https://h".toList :: (extractLinks demoResp.body "https://h".toList).take 20 :=
  ⟨⟨rfl, rfl⟩, (link_probe_bounded demoFetch "https://h".toList demoResp rfl rfl).1⟩
